import Mathlib

/-!
Verification of `src/scripts/ciris-fix-permissions.c` (CIRISManager).

The program is a setuid-root CLI tool: it validates its single argument
against the fixed textual base `/opt/ciris/agents/`, checks the target is an
existing directory, escalates privileges, and then normalizes ownership and
mode bits of six fixed subdirectories (`data`, `data_archive`, `logs`,
`config` at 0755/0644 and `audit_keys`, `.secrets` at 0700/0600),
recursively.

Shallow embedding used here:
* A filesystem object is a finite tree (`FSObj` / `Entries`).  Each node
  carries its metadata (`Meta`: mode, uid, gid) and environment fault flags
  (`Flags`): whether a `chmod`, `chown`/`lchown`, `lstat` or `opendir`
  issued against this object fails.  A failed call leaves metadata
  unchanged, exactly as the corresponding syscall would.
* Paths are component lists (`Path`); the C code builds child paths with
  `snprintf("%s/%s", path, name)`, which `renderPath` reproduces textually.
  (The 512/1024-byte `snprintf` buffers are modelled as unbounded.)
* Entry classification comes from `lstat`, so a symbolic link is the
  `symlink` constructor regardless of what its target is; the per-entry
  ownership call is `lchown` and acts on the node (the link) itself.
  Symlink targets are not part of the model.
* The traversal records: the resulting object, the C return value
  (`ok = true` for `0`), the standard-error messages (the `strerror` text is
  elided), the paths passed to `chmod`/`chown`/`lchown` (`touched`), and the
  directories successfully opened for reading (`opened`).
* `main` is modelled for the `argc == 2` case; the world it operates on is
  the object the kernel resolves the argument path to (or `none`), and
  `setuidOk` says whether `setuid(0)` succeeds.
-/

namespace Ciris

/-- Fixed base path, `#define AGENT_BASE_PATH "/opt/ciris/agents/"`. -/
def AGENT_BASE_PATH : String := "/opt/ciris/agents/"

/-- Fixed numeric owner, `#define CONTAINER_UID 1000`. -/
def CONTAINER_UID : Nat := 1000

/-- Fixed numeric group, `#define CONTAINER_GID 1000`. -/
def CONTAINER_GID : Nat := 1000

/-- Metadata of a filesystem object: permission bits and ownership. -/
structure Meta where
  mode : Nat
  uid : Nat
  gid : Nat
deriving DecidableEq

/-- Fault-injection flags of one object: which syscalls against it fail. -/
structure Flags where
  chmodFail : Bool
  chownFail : Bool
  lstatFail : Bool
  openFail : Bool
deriving DecidableEq

/-- All syscalls against the object succeed. -/
def Flags.allOk (f : Flags) : Bool :=
  !f.chmodFail && !f.chownFail && !f.lstatFail && !f.openFail

/-- The flags value with every operation succeeding. -/
def okFlags : Flags := ⟨false, false, false, false⟩

mutual
/-- A filesystem object as classified by `lstat`: directory (with its
entries, in `readdir` order and without the skipped `.` / `..`), regular
file, symbolic link, or any other type.  A symlink is classified as such
regardless of its target, because the program classifies with `lstat`. -/
inductive FSObj where
  | dir (m : Meta) (f : Flags) (es : Entries)
  | file (m : Meta) (f : Flags)
  | symlink (m : Meta) (f : Flags)
  | other (m : Meta) (f : Flags)
deriving DecidableEq

/-- The named entries of a directory, in `readdir` order. -/
inductive Entries where
  | nil
  | cons (name : String) (obj : FSObj) (rest : Entries)
deriving DecidableEq
end

/-- The metadata of an object. -/
def FSObj.meta : FSObj → Meta
  | .dir m _ _ => m
  | .file m _ => m
  | .symlink m _ => m
  | .other m _ => m

/-- The fault flags of an object. -/
def FSObj.flagsOf : FSObj → Flags
  | .dir _ f _ => f
  | .file _ f => f
  | .symlink _ f => f
  | .other _ f => f

/-- The `S_ISDIR` test of the `lstat`/`stat` type bits. -/
def FSObj.isDir : FSObj → Bool
  | .dir _ _ _ => true
  | _ => false

/-- First entry of the given name, as directory lookup resolves it. -/
def Entries.lookup : Entries → String → Option FSObj
  | .nil, _ => none
  | .cons n o rest, k => if n = k then some o else rest.lookup k

/-- Replace the first entry of the given name (directory in-place update). -/
def Entries.update : Entries → String → FSObj → Entries
  | .nil, _, _ => .nil
  | .cons n o rest, k, v =>
      if n = k then .cons n v rest else .cons n o (rest.update k v)

/-- A path as the program builds it: a head component (the command-line
argument) followed by name components appended with `snprintf("%s/%s",...)`. -/
abbrev Path := List String

/-- The textual path the C code would hold in its buffer. -/
def renderPath : Path → String
  | [] => ""
  | [a] => a
  | a :: rest => a ++ "/" ++ renderPath rest

/-- Stderr line for a failed `chmod` (the `strerror` suffix is elided). -/
def chmodMsg (p : Path) : String := "Failed to chmod " ++ renderPath p

/-- Stderr line for a failed `chown` / `lchown`. -/
def chownMsg (p : Path) : String := "Failed to chown " ++ renderPath p

/-- Stderr line for a failed `lstat`. -/
def statMsg (p : Path) : String := "Failed to stat " ++ renderPath p

/-- Result of processing one directory entry (the loop body of
`fix_directory_permissions_recursive`, lines 56-87 of the C file). -/
structure EntryOut where
  obj : FSObj
  errs : List String
  touched : List Path
  opened : List Path
deriving DecidableEq

/-- Result of the `readdir` loop over a whole entry list. -/
structure EntriesOut where
  objs : Entries
  errs : List String
  touched : List Path
  opened : List Path
deriving DecidableEq

mutual
/-- The loop body of `fix_directory_permissions_recursive` for one entry
`n` of the directory at `p` (C lines 56-87): `lstat`, then `lchown`
(skipping the entry entirely on failure of either), then for a directory a
recursive `fix_directory_permissions_recursive(full_path, dm, fm)` whose
return value is ignored, for a regular file a `chmod(full_path, fm)` whose
failure is only reported, and nothing further for symlinks and other types.
The recursive call is inlined here (its initial `chmod`, `chown` — which
repeats the just-succeeded ownership change — and `opendir`), so that the
recursion is structural; `fixEntry_dir_eq` proves this inlining equal to
the composed form. -/
def fixEntry (p : Path) (n : String) (c : FSObj) (dm fm : Nat) : EntryOut :=
  match c with
  | .dir m f es =>
    if f.lstatFail then ⟨c, [statMsg (p ++ [n])], [], []⟩
    else if f.chownFail then ⟨c, [chownMsg (p ++ [n])], [p ++ [n]], []⟩
    else
      if f.chmodFail then
        ⟨.dir ⟨m.mode, CONTAINER_UID, CONTAINER_GID⟩ f es,
          [chmodMsg (p ++ [n])], [p ++ [n], p ++ [n]], []⟩
      else if f.openFail then
        ⟨.dir ⟨dm, CONTAINER_UID, CONTAINER_GID⟩ f es, [],
          [p ++ [n], p ++ [n]], []⟩
      else
        let r := fixEntries (p ++ [n]) es dm fm
        ⟨.dir ⟨dm, CONTAINER_UID, CONTAINER_GID⟩ f r.objs, r.errs,
          (p ++ [n]) :: (p ++ [n]) :: r.touched, (p ++ [n]) :: r.opened⟩
  | .file m f =>
    if f.lstatFail then ⟨c, [statMsg (p ++ [n])], [], []⟩
    else if f.chownFail then ⟨c, [chownMsg (p ++ [n])], [p ++ [n]], []⟩
    else if f.chmodFail then
      ⟨.file ⟨m.mode, CONTAINER_UID, CONTAINER_GID⟩ f,
        [chmodMsg (p ++ [n])], [p ++ [n]], []⟩
    else ⟨.file ⟨fm, CONTAINER_UID, CONTAINER_GID⟩ f, [], [p ++ [n]], []⟩
  | .symlink m f =>
    if f.lstatFail then ⟨c, [statMsg (p ++ [n])], [], []⟩
    else if f.chownFail then ⟨c, [chownMsg (p ++ [n])], [p ++ [n]], []⟩
    else ⟨.symlink ⟨m.mode, CONTAINER_UID, CONTAINER_GID⟩ f, [], [p ++ [n]], []⟩
  | .other m f =>
    if f.lstatFail then ⟨c, [statMsg (p ++ [n])], [], []⟩
    else if f.chownFail then ⟨c, [chownMsg (p ++ [n])], [p ++ [n]], []⟩
    else ⟨.other ⟨m.mode, CONTAINER_UID, CONTAINER_GID⟩ f, [], [p ++ [n]], []⟩

/-- The `readdir` loop of `fix_directory_permissions_recursive` over the
entries of the directory at `p`: each entry is processed independently and
in order; a failure on one entry never stops the loop. -/
def fixEntries (p : Path) (es : Entries) (dm fm : Nat) : EntriesOut :=
  match es with
  | .nil => ⟨.nil, [], [], []⟩
  | .cons n c rest =>
    let r := fixEntry p n c dm fm
    let rr := fixEntries p rest dm fm
    ⟨.cons n r.obj rr.objs, r.errs ++ rr.errs,
      r.touched ++ rr.touched, r.opened ++ rr.opened⟩
end

/-- Result of `fix_directory_permissions_recursive`: the object after the
call, the C return value (`ok = true` for `0`), the stderr lines, the
paths passed to `chmod`/`chown`/`lchown`, and the directories opened. -/
structure RunOut where
  obj : FSObj
  ok : Bool
  errs : List String
  touched : List Path
  opened : List Path
deriving DecidableEq

/-- The function `fix_directory_permissions_recursive(path, dir_mode, file_mode)`
(C lines 35-91): `chmod(path, dm)` (returning `-1` on failure), then
`chown(path, 1000, 1000)` (returning `-1` on failure), then `opendir` —
a `NULL` result (non-directory or injected failure) silently returns `0` —
then the `readdir` loop, then `0` regardless of per-entry failures.
In the model the call is applied directly to the object the kernel would
resolve `path` to; for a non-directory object the initial `chmod`/`chown`
still apply (with the directory mode `dm`) before `opendir` fails. -/
def fix_directory_permissions_recursive (p : Path) (o : FSObj) (dm fm : Nat) :
    RunOut :=
  match o with
  | .dir m f es =>
    if f.chmodFail then ⟨o, false, [chmodMsg p], [p], []⟩
    else if f.chownFail then
      ⟨.dir ⟨dm, m.uid, m.gid⟩ f es, false, [chownMsg p], [p], []⟩
    else if f.openFail then
      ⟨.dir ⟨dm, CONTAINER_UID, CONTAINER_GID⟩ f es, true, [], [p], []⟩
    else
      let r := fixEntries p es dm fm
      ⟨.dir ⟨dm, CONTAINER_UID, CONTAINER_GID⟩ f r.objs, true, r.errs,
        p :: r.touched, p :: r.opened⟩
  | .file m f =>
    if f.chmodFail then ⟨o, false, [chmodMsg p], [p], []⟩
    else if f.chownFail then
      ⟨.file ⟨dm, m.uid, m.gid⟩ f, false, [chownMsg p], [p], []⟩
    else ⟨.file ⟨dm, CONTAINER_UID, CONTAINER_GID⟩ f, true, [], [p], []⟩
  | .symlink m f =>
    if f.chmodFail then ⟨o, false, [chmodMsg p], [p], []⟩
    else if f.chownFail then
      ⟨.symlink ⟨dm, m.uid, m.gid⟩ f, false, [chownMsg p], [p], []⟩
    else ⟨.symlink ⟨dm, CONTAINER_UID, CONTAINER_GID⟩ f, true, [], [p], []⟩
  | .other m f =>
    if f.chmodFail then ⟨o, false, [chmodMsg p], [p], []⟩
    else if f.chownFail then
      ⟨.other ⟨dm, m.uid, m.gid⟩ f, false, [chownMsg p], [p], []⟩
    else ⟨.other ⟨dm, CONTAINER_UID, CONTAINER_GID⟩ f, true, [], [p], []⟩

/-- The wrapper `fix_directory_permissions(path, mode)` (C lines 93-98): derives the
file mode — `0600` for the secure `0700` directories, `0644` otherwise —
and calls the recursive version. -/
def fix_directory_permissions (p : Path) (o : FSObj) (mode : Nat) : RunOut :=
  fix_directory_permissions_recursive p o mode
    (if mode == 0o700 then 0o600 else 0o644)

/-- The strncmp-based security check of `main` (C lines 108-112): the
first `strlen(AGENT_BASE_PATH)` characters of the argument are compared
byte-wise with the base path, nothing else is inspected. -/
def validatePath (s : String) : Bool :=
  s.data.take AGENT_BASE_PATH.data.length == AGENT_BASE_PATH.data

/-- The six managed subdirectory names with their directory modes, in the
order `main` processes them (C lines 136-158). -/
def sixSubdirs : List (String × Nat) :=
  [("data", 0o755), ("data_archive", 0o755), ("logs", 0o755),
   ("config", 0o755), ("audit_keys", 0o700), (".secrets", 0o700)]

/-- State threaded through the six `fix_directory_permissions` calls of
`main`: the agent directory's entries, the accumulated `failed` flag, and
the run's observable outputs. -/
structure OrchState where
  es : Entries
  failed : Bool
  errs : List String
  touched : List Path
  opened : List Path
deriving DecidableEq

/-- One `fix_directory_permissions(agent_dir "/" name, mode)` call of
`main`: when the child does not exist the initial `chmod` fails with
`ENOENT` (reported, `failed` set), otherwise the child object is
normalized in place and a `-1` return sets `failed`. -/
def runOneSubdir (agentDir : String) (s : OrchState) (nm : String × Nat) :
    OrchState :=
  match s.es.lookup nm.1 with
  | none =>
      ⟨s.es, true, s.errs ++ [chmodMsg [agentDir, nm.1]],
        s.touched ++ [[agentDir, nm.1]], s.opened⟩
  | some c =>
      let r := fix_directory_permissions [agentDir, nm.1] c nm.2
      ⟨s.es.update nm.1 r.obj, s.failed || !r.ok, s.errs ++ r.errs,
        s.touched ++ r.touched, s.opened ++ r.opened⟩

/-- The six sequential subdirectory fixes of `main`, in source order. -/
def runSubdirs (agentDir : String) (es : Entries) : OrchState :=
  sixSubdirs.foldl (runOneSubdir agentDir) ⟨es, false, [], [], []⟩

/-- Stderr line of the failed security check. -/
def pathSecurityMsg : String := "Error: Path must be under " ++ AGENT_BASE_PATH

/-- Stderr line when `stat` on the argument fails. -/
def notExistMsg (a : String) : String :=
  "Error: Directory " ++ a ++ " does not exist"

/-- Stderr line when the argument is not a directory. -/
def notDirMsg (a : String) : String := "Error: " ++ a ++ " is not a directory"

/-- Stderr line when `setuid(0)` fails. -/
def escalateMsg : String := "Error: Failed to escalate privileges"

/-- Stderr line printed when any of the six fixes failed. -/
def someFailedMsg : String := "Some permissions could not be fixed"

/-- Stdout line of a fully successful run. -/
def successMsg (a : String) : String :=
  "Successfully fixed permissions for " ++ a

/-- Observable outcome of one `main` invocation. -/
structure MainOut where
  exitCode : Nat
  setuidCalled : Bool
  world : Option FSObj
  errs : List String
  printed : Option String
  touched : List Path
  opened : List Path
deriving DecidableEq

/-- The C `main` (lines 100-167) for `argc = 2`: security check on the raw
argument string, `stat` existence check, `S_ISDIR` check, `setuid(0)`
(whose success the environment parameter `setuidOk` decides), then the six
subdirectory fixes with the aggregate `failed` flag deciding the exit
status and final message.  `w` is the object the kernel resolves the
argument to (`none` when `stat` fails). -/
def main (agent_dir : String) (w : Option FSObj) (setuidOk : Bool) : MainOut :=
  if validatePath agent_dir then
    match w with
    | none => ⟨1, false, w, [notExistMsg agent_dir], none, [], []⟩
    | some (.dir m f es) =>
      if setuidOk then
        let s := runSubdirs agent_dir es
        if s.failed then
          ⟨1, true, some (.dir m f s.es), s.errs ++ [someFailedMsg], none,
            s.touched, s.opened⟩
        else
          ⟨0, true, some (.dir m f s.es), s.errs,
            some (successMsg agent_dir), s.touched, s.opened⟩
      else ⟨1, true, w, [escalateMsg], none, [], []⟩
    | some _ => ⟨1, false, w, [notDirMsg agent_dir], none, [], []⟩
  else ⟨1, false, w, [pathSecurityMsg], none, [], []⟩

/-- Split a character list at `/` into raw path components. -/
def splitSlash : List Char → List (List Char)
  | [] => [[]]
  | c :: rest =>
    match splitSlash rest with
    | [] => [[c]]
    | h :: t => if c = '/' then [] :: h :: t else (c :: h) :: t

/-- POSIX-style resolution of a path string into canonical components:
empty and `.` components are dropped and `..` removes the previous
component (at the root, `..` of `/` stays `/`).  Used to compare the
textual security check with where a path actually leads. -/
def resolve (s : String) : List String :=
  (splitSlash s.data).foldl
    (fun acc comp =>
      if comp = [] ∨ comp = ['.'] then acc
      else if comp = ['.', '.'] then acc.dropLast
      else acc ++ [String.mk comp]) []

/-- The canonical components of the base path. -/
def baseComponents : List String := ["opt", "ciris", "agents"]

/-- Whether a resolved path lies inside the base directory. -/
def isUnderBase (p : List String) : Bool := baseComponents.isPrefixOf p

mutual
/-- The normalization target the specification states for one subtree:
directories carry the directory mode, regular files the file mode, and
every object the fixed 1000/1000 identity; symlinks and other types keep
their mode. -/
def normalizedObj (dm fm : Nat) : FSObj → Bool
  | .dir m _ es =>
      m.mode == dm && m.uid == CONTAINER_UID && m.gid == CONTAINER_GID &&
        normalizedEntries dm fm es
  | .file m _ => m.mode == fm && m.uid == CONTAINER_UID && m.gid == CONTAINER_GID
  | .symlink m _ => m.uid == CONTAINER_UID && m.gid == CONTAINER_GID
  | .other m _ => m.uid == CONTAINER_UID && m.gid == CONTAINER_GID

/-- Conjunction of `normalizedObj` over an entry list. -/
def normalizedEntries (dm fm : Nat) : Entries → Bool
  | .nil => true
  | .cons _ o rest => normalizedObj dm fm o && normalizedEntries dm fm rest
end

mutual
/-- No syscall issued against any object of this subtree fails. -/
def noFaultsObj : FSObj → Bool
  | .dir _ f es => f.allOk && noFaultsEntries es
  | .file _ f => f.allOk
  | .symlink _ f => f.allOk
  | .other _ f => f.allOk

/-- Conjunction of `noFaultsObj` over an entry list. -/
def noFaultsEntries : Entries → Bool
  | .nil => true
  | .cons _ o rest => noFaultsObj o && noFaultsEntries rest
end

/-- Whether `main`'s call on this named child returns `0`: the child must
exist and its initial `chmod` and `chown` must succeed (`fix_ok_root`
proves nothing else matters). -/
def rootOk (es : Entries) (nm : String) : Bool :=
  match es.lookup nm with
  | none => false
  | some c => !c.flagsOf.chmodFail && !c.flagsOf.chownFail

/-- The child object a final world holds under the given name. -/
def lookupIn (w : Option FSObj) (nm : String) : Option FSObj :=
  match w with
  | some (.dir _ _ es) => es.lookup nm
  | _ => none

/-! Small lemmas about directory entry lookup and update. -/

theorem Entries.lookup_update_self (es : Entries) (k : String) (v : FSObj)
    (h : (es.lookup k).isSome) : (es.update k v).lookup k = some v :=
  match es with
  | .nil => by simp [Entries.lookup] at h
  | .cons n o rest => by
      by_cases hn : n = k
      · simp [Entries.update, Entries.lookup, hn]
      · simp only [Entries.lookup, hn, if_false] at h
        simp [Entries.update, Entries.lookup, hn,
          Entries.lookup_update_self rest k v h]

theorem Entries.lookup_update_ne (es : Entries) (k n : String) (v : FSObj)
    (h : n ≠ k) : (es.update k v).lookup n = es.lookup n :=
  match es with
  | .nil => by simp [Entries.update]
  | .cons n0 o rest => by
      by_cases hn : n0 = k
      · subst hn
        have hns : n0 ≠ n := fun hc => h hc.symm
        simp [Entries.update, Entries.lookup, hns]
      · simp [Entries.update, Entries.lookup, hn,
          Entries.lookup_update_ne rest k n v h]

theorem Entries.update_eq_self (es : Entries) (k : String) (v : FSObj)
    (h : es.lookup k = some v) : es.update k v = es :=
  match es with
  | .nil => rfl
  | .cons n o rest => by
      by_cases hn : n = k
      · simp only [Entries.lookup, hn, if_true, Option.some_inj] at h
        simp [Entries.update, hn, h]
      · simp only [Entries.lookup, hn, if_false] at h
        simp [Entries.update, hn, Entries.update_eq_self rest k v h]

/-! The return value of the recursive normalizer. -/

/-- The C return value of `fix_directory_permissions_recursive` is decided
by the initial `chmod` and `chown` on the root path alone. -/
theorem fix_recursive_ok_eq (p : Path) (o : FSObj) (dm fm : Nat) :
    (fix_directory_permissions_recursive p o dm fm).ok
      = (!o.flagsOf.chmodFail && !o.flagsOf.chownFail) := by
  cases o with
  | dir m f es =>
      by_cases h1 : f.chmodFail
      · simp [fix_directory_permissions_recursive, h1, FSObj.flagsOf]
      · by_cases h2 : f.chownFail
        · simp [fix_directory_permissions_recursive, h1, h2, FSObj.flagsOf]
        · by_cases h3 : f.openFail <;>
            simp [fix_directory_permissions_recursive, h1, h2, h3, FSObj.flagsOf]
  | file m f =>
      by_cases h1 : f.chmodFail
      · simp [fix_directory_permissions_recursive, h1, FSObj.flagsOf]
      · by_cases h2 : f.chownFail <;>
          simp [fix_directory_permissions_recursive, h1, h2, FSObj.flagsOf]
  | symlink m f =>
      by_cases h1 : f.chmodFail
      · simp [fix_directory_permissions_recursive, h1, FSObj.flagsOf]
      · by_cases h2 : f.chownFail <;>
          simp [fix_directory_permissions_recursive, h1, h2, FSObj.flagsOf]
  | other m f =>
      by_cases h1 : f.chmodFail
      · simp [fix_directory_permissions_recursive, h1, FSObj.flagsOf]
      · by_cases h2 : f.chownFail <;>
          simp [fix_directory_permissions_recursive, h1, h2, FSObj.flagsOf]

/-- Same fact for the `fix_directory_permissions` wrapper. -/
theorem fix_perms_ok_eq (p : Path) (o : FSObj) (mode : Nat) :
    (fix_directory_permissions p o mode).ok
      = (!o.flagsOf.chmodFail && !o.flagsOf.chownFail) := by
  simpa [fix_directory_permissions] using
    fix_recursive_ok_eq p o mode (if mode == 0o700 then 0o600 else 0o644)

/-! Fidelity of the inlined loop body.

The directory case of `fixEntry` inlines the recursive call of C line 80;
this lemma shows the inlined form equal to the literal composition
"`lchown` succeeded, then `fix_directory_permissions_recursive` on the
entry, its return value ignored". -/

theorem fixEntry_dir_eq (p : Path) (n : String) (m : Meta) (f : Flags)
    (es : Entries) (dm fm : Nat)
    (h1 : f.lstatFail = false) (h2 : f.chownFail = false) :
    fixEntry p n (.dir m f es) dm fm =
      ⟨(fix_directory_permissions_recursive (p ++ [n])
          (.dir ⟨m.mode, CONTAINER_UID, CONTAINER_GID⟩ f es) dm fm).obj,
        (fix_directory_permissions_recursive (p ++ [n])
          (.dir ⟨m.mode, CONTAINER_UID, CONTAINER_GID⟩ f es) dm fm).errs,
        (p ++ [n]) :: (fix_directory_permissions_recursive (p ++ [n])
          (.dir ⟨m.mode, CONTAINER_UID, CONTAINER_GID⟩ f es) dm fm).touched,
        (fix_directory_permissions_recursive (p ++ [n])
          (.dir ⟨m.mode, CONTAINER_UID, CONTAINER_GID⟩ f es) dm fm).opened⟩ := by
  by_cases h3 : f.chmodFail
  · simp [fixEntry, fix_directory_permissions_recursive, h1, h2, h3]
  · by_cases h4 : f.openFail <;>
      simp [fixEntry, fix_directory_permissions_recursive, h1, h2, h3, h4]

/-! Idempotence of the normalizer on a fixed fault assignment. -/

mutual
theorem fixEntry_obj_idem (p : Path) (n : String) (c : FSObj) (dm fm : Nat) :
    (fixEntry p n (fixEntry p n c dm fm).obj dm fm).obj
      = (fixEntry p n c dm fm).obj :=
  match c with
  | .dir m f es => by
      by_cases h1 : f.lstatFail
      · simp [fixEntry, h1]
      · by_cases h2 : f.chownFail
        · simp [fixEntry, h1, h2]
        · by_cases h3 : f.chmodFail
          · simp [fixEntry, h1, h2, h3]
          · by_cases h4 : f.openFail
            · simp [fixEntry, h1, h2, h3, h4]
            · simp only [fixEntry, h1, h2, h3, h4, if_false, if_true,
                Bool.false_eq_true]
              simp [fixEntries_objs_idem (p ++ [n]) es dm fm]
  | .file m f => by
      by_cases h1 : f.lstatFail
      · simp [fixEntry, h1]
      · by_cases h2 : f.chownFail
        · simp [fixEntry, h1, h2]
        · by_cases h3 : f.chmodFail <;> simp [fixEntry, h1, h2, h3]
  | .symlink m f => by
      by_cases h1 : f.lstatFail
      · simp [fixEntry, h1]
      · by_cases h2 : f.chownFail <;> simp [fixEntry, h1, h2]
  | .other m f => by
      by_cases h1 : f.lstatFail
      · simp [fixEntry, h1]
      · by_cases h2 : f.chownFail <;> simp [fixEntry, h1, h2]

theorem fixEntries_objs_idem (p : Path) (es : Entries) (dm fm : Nat) :
    (fixEntries p (fixEntries p es dm fm).objs dm fm).objs
      = (fixEntries p es dm fm).objs :=
  match es with
  | .nil => by simp [fixEntries]
  | .cons n c rest => by
      simp only [fixEntries]
      simp [fixEntry_obj_idem p n c dm fm, fixEntries_objs_idem p rest dm fm]
end

/-- Running the recursive normalizer twice on an object (with the same
fault assignment) produces the state a single run produces. -/
theorem fix_recursive_obj_idem (p : Path) (o : FSObj) (dm fm : Nat) :
    (fix_directory_permissions_recursive p
        (fix_directory_permissions_recursive p o dm fm).obj dm fm).obj
      = (fix_directory_permissions_recursive p o dm fm).obj := by
  cases o with
  | dir m f es =>
      by_cases h1 : f.chmodFail
      · simp [fix_directory_permissions_recursive, h1]
      · by_cases h2 : f.chownFail
        · simp [fix_directory_permissions_recursive, h1, h2]
        · by_cases h3 : f.openFail
          · simp [fix_directory_permissions_recursive, h1, h2, h3]
          · simp only [fix_directory_permissions_recursive, h1, h2, h3,
              if_false, if_true, Bool.false_eq_true]
            simp [fixEntries_objs_idem p es dm fm]
  | file m f =>
      by_cases h1 : f.chmodFail
      · simp [fix_directory_permissions_recursive, h1]
      · by_cases h2 : f.chownFail <;>
          simp [fix_directory_permissions_recursive, h1, h2]
  | symlink m f =>
      by_cases h1 : f.chmodFail
      · simp [fix_directory_permissions_recursive, h1]
      · by_cases h2 : f.chownFail <;>
          simp [fix_directory_permissions_recursive, h1, h2]
  | other m f =>
      by_cases h1 : f.chmodFail
      · simp [fix_directory_permissions_recursive, h1]
      · by_cases h2 : f.chownFail <;>
          simp [fix_directory_permissions_recursive, h1, h2]

/-- Idempotence of the `fix_directory_permissions` wrapper. -/
theorem fix_perms_obj_idem (p : Path) (o : FSObj) (mode : Nat) :
    (fix_directory_permissions p (fix_directory_permissions p o mode).obj
        mode).obj
      = (fix_directory_permissions p o mode).obj := by
  simpa [fix_directory_permissions] using
    fix_recursive_obj_idem p o mode (if mode == 0o700 then 0o600 else 0o644)

/-! Full normalization when no syscall fails. -/

mutual
theorem fixEntry_normalized (p : Path) (n : String) (c : FSObj) (dm fm : Nat)
    (h : noFaultsObj c = true) :
    normalizedObj dm fm (fixEntry p n c dm fm).obj = true :=
  match c with
  | .dir m f es => by
      simp only [noFaultsObj, Flags.allOk, Bool.and_eq_true,
        Bool.not_eq_true'] at h
      obtain ⟨⟨⟨⟨h1, h2⟩, h3⟩, h4⟩, h5⟩ := h
      simp [fixEntry, h1, h2, h3, h4, normalizedObj, CONTAINER_UID,
        CONTAINER_GID, fixEntries_normalized (p ++ [n]) es dm fm h5]
  | .file m f => by
      simp only [noFaultsObj, Flags.allOk, Bool.and_eq_true,
        Bool.not_eq_true'] at h
      obtain ⟨⟨⟨h1, h2⟩, h3⟩, h4⟩ := h
      simp [fixEntry, h1, h2, h3, normalizedObj, CONTAINER_UID, CONTAINER_GID]
  | .symlink m f => by
      simp only [noFaultsObj, Flags.allOk, Bool.and_eq_true,
        Bool.not_eq_true'] at h
      obtain ⟨⟨⟨h1, h2⟩, h3⟩, h4⟩ := h
      simp [fixEntry, h2, h3, normalizedObj, CONTAINER_UID, CONTAINER_GID]
  | .other m f => by
      simp only [noFaultsObj, Flags.allOk, Bool.and_eq_true,
        Bool.not_eq_true'] at h
      obtain ⟨⟨⟨h1, h2⟩, h3⟩, h4⟩ := h
      simp [fixEntry, h2, h3, normalizedObj, CONTAINER_UID, CONTAINER_GID]

theorem fixEntries_normalized (p : Path) (es : Entries) (dm fm : Nat)
    (h : noFaultsEntries es = true) :
    normalizedEntries dm fm (fixEntries p es dm fm).objs = true :=
  match es with
  | .nil => by simp [fixEntries, normalizedEntries]
  | .cons n c rest => by
      simp only [noFaultsEntries, Bool.and_eq_true] at h
      simp [fixEntries, normalizedEntries,
        fixEntry_normalized p n c dm fm h.1,
        fixEntries_normalized p rest dm fm h.2]
end

/-- On a fault-free directory the recursive normalizer returns `0` and
leaves the subtree fully normalized. -/
theorem fix_recursive_normalized (p : Path) (m : Meta) (f : Flags)
    (es : Entries) (dm fm : Nat)
    (h : noFaultsObj (.dir m f es) = true) :
    (fix_directory_permissions_recursive p (.dir m f es) dm fm).ok = true ∧
      normalizedObj dm fm
        (fix_directory_permissions_recursive p (.dir m f es) dm fm).obj
        = true := by
  have h0 := h
  simp only [noFaultsObj, Flags.allOk, Bool.and_eq_true,
    Bool.not_eq_true'] at h0
  obtain ⟨⟨⟨⟨h1, h2⟩, h3⟩, h4⟩, h5⟩ := h0
  constructor
  · simp [fix_recursive_ok_eq, FSObj.flagsOf, h1, h2]
  · simp [fix_directory_permissions_recursive, h1, h2, h4, normalizedObj,
      CONTAINER_UID, CONTAINER_GID, fixEntries_normalized p es dm fm h5]

/-! Every touched path extends the path of the call. -/

mutual
theorem fixEntry_touched_sub (p : Path) (n : String) (c : FSObj)
    (dm fm : Nat) (q : Path) (hq : q ∈ (fixEntry p n c dm fm).touched) :
    ∃ t, q = p ++ t :=
  match c with
  | .dir m f es => by
      by_cases h1 : f.lstatFail
      · simp [fixEntry, h1] at hq
      · by_cases h2 : f.chownFail
        · simp [fixEntry, h1, h2] at hq
          exact ⟨[n], hq⟩
        · by_cases h3 : f.chmodFail
          · simp [fixEntry, h1, h2, h3] at hq
            exact ⟨[n], hq⟩
          · by_cases h4 : f.openFail
            · simp [fixEntry, h1, h2, h3, h4] at hq
              exact ⟨[n], hq⟩
            · simp only [fixEntry, h1, h2, h3, h4, if_false, if_true,
                Bool.false_eq_true, List.mem_cons] at hq
              rcases hq with hq | hq | hq
              · exact ⟨[n], hq⟩
              · exact ⟨[n], hq⟩
              · obtain ⟨t, ht⟩ :=
                  fixEntries_touched_sub (p ++ [n]) es dm fm q hq
                exact ⟨[n] ++ t, by simp [ht]⟩
  | .file m f => by
      by_cases h1 : f.lstatFail
      · simp [fixEntry, h1] at hq
      · by_cases h2 : f.chownFail
        · simp [fixEntry, h1, h2] at hq
          exact ⟨[n], hq⟩
        · by_cases h3 : f.chmodFail <;>
            · simp [fixEntry, h1, h2, h3] at hq
              exact ⟨[n], hq⟩
  | .symlink m f => by
      by_cases h1 : f.lstatFail
      · simp [fixEntry, h1] at hq
      · by_cases h2 : f.chownFail <;>
          · simp [fixEntry, h1, h2] at hq
            exact ⟨[n], hq⟩
  | .other m f => by
      by_cases h1 : f.lstatFail
      · simp [fixEntry, h1] at hq
      · by_cases h2 : f.chownFail <;>
          · simp [fixEntry, h1, h2] at hq
            exact ⟨[n], hq⟩

theorem fixEntries_touched_sub (p : Path) (es : Entries) (dm fm : Nat)
    (q : Path) (hq : q ∈ (fixEntries p es dm fm).touched) :
    ∃ t, q = p ++ t :=
  match es with
  | .nil => by simp [fixEntries] at hq
  | .cons n c rest => by
      simp only [fixEntries, List.mem_append] at hq
      rcases hq with hq | hq
      · exact fixEntry_touched_sub p n c dm fm q hq
      · exact fixEntries_touched_sub p rest dm fm q hq
end

/-- Every path the recursive normalizer passes to `chmod`/`chown`/`lchown`
extends the root path of the call. -/
theorem fix_recursive_touched_sub (p : Path) (o : FSObj) (dm fm : Nat)
    (q : Path)
    (hq : q ∈ (fix_directory_permissions_recursive p o dm fm).touched) :
    ∃ t, q = p ++ t := by
  cases o with
  | dir m f es =>
      by_cases h1 : f.chmodFail
      · simp [fix_directory_permissions_recursive, h1] at hq
        exact ⟨[], by simp [hq]⟩
      · by_cases h2 : f.chownFail
        · simp [fix_directory_permissions_recursive, h1, h2] at hq
          exact ⟨[], by simp [hq]⟩
        · by_cases h3 : f.openFail
          · simp [fix_directory_permissions_recursive, h1, h2, h3] at hq
            exact ⟨[], by simp [hq]⟩
          · simp only [fix_directory_permissions_recursive, h1, h2, h3,
              if_false, if_true, Bool.false_eq_true, List.mem_cons] at hq
            rcases hq with hq | hq
            · exact ⟨[], by simp [hq]⟩
            · exact fixEntries_touched_sub p es dm fm q hq
  | file m f =>
      by_cases h1 : f.chmodFail
      · simp [fix_directory_permissions_recursive, h1] at hq
        exact ⟨[], by simp [hq]⟩
      · by_cases h2 : f.chownFail <;>
          · simp [fix_directory_permissions_recursive, h1, h2] at hq
            exact ⟨[], by simp [hq]⟩
  | symlink m f =>
      by_cases h1 : f.chmodFail
      · simp [fix_directory_permissions_recursive, h1] at hq
        exact ⟨[], by simp [hq]⟩
      · by_cases h2 : f.chownFail <;>
          · simp [fix_directory_permissions_recursive, h1, h2] at hq
            exact ⟨[], by simp [hq]⟩
  | other m f =>
      by_cases h1 : f.chmodFail
      · simp [fix_directory_permissions_recursive, h1] at hq
        exact ⟨[], by simp [hq]⟩
      · by_cases h2 : f.chownFail <;>
          · simp [fix_directory_permissions_recursive, h1, h2] at hq
            exact ⟨[], by simp [hq]⟩

/-- The touched-path list of the recursive normalizer starts with the root
path itself (the initial `chmod` attempt). -/
theorem fix_recursive_touched_head (p : Path) (o : FSObj) (dm fm : Nat) :
    ∃ t, (fix_directory_permissions_recursive p o dm fm).touched
      = p :: t := by
  cases o with
  | dir m f es =>
      by_cases h1 : f.chmodFail
      · exact ⟨[], by simp [fix_directory_permissions_recursive, h1]⟩
      · by_cases h2 : f.chownFail
        · exact ⟨[], by simp [fix_directory_permissions_recursive, h1, h2]⟩
        · by_cases h3 : f.openFail
          · exact ⟨[], by
              simp [fix_directory_permissions_recursive, h1, h2, h3]⟩
          · exact ⟨(fixEntries p es dm fm).touched, by
              simp [fix_directory_permissions_recursive, h1, h2, h3]⟩
  | file m f =>
      by_cases h1 : f.chmodFail
      · exact ⟨[], by simp [fix_directory_permissions_recursive, h1]⟩
      · by_cases h2 : f.chownFail <;>
          exact ⟨[], by simp [fix_directory_permissions_recursive, h1, h2]⟩
  | symlink m f =>
      by_cases h1 : f.chmodFail
      · exact ⟨[], by simp [fix_directory_permissions_recursive, h1]⟩
      · by_cases h2 : f.chownFail <;>
          exact ⟨[], by simp [fix_directory_permissions_recursive, h1, h2]⟩
  | other m f =>
      by_cases h1 : f.chmodFail
      · exact ⟨[], by simp [fix_directory_permissions_recursive, h1]⟩
      · by_cases h2 : f.chownFail <;>
          exact ⟨[], by simp [fix_directory_permissions_recursive, h1, h2]⟩

/-! The textual security check. -/

/-- The strncmp security check accepts exactly the strings that textually
begin with the base path. -/
theorem validatePath_iff (s : String) :
    validatePath s = true ↔ AGENT_BASE_PATH.data <+: s.data := by
  rw [validatePath, beq_iff_eq, List.prefix_iff_eq_take]
  exact ⟨fun h => h.symm, fun h => h.symm⟩

/-- The rendered form of a non-empty path starts with the characters of
its head component. -/
theorem renderPath_cons_data (a : String) (t : List String) :
    ∃ r, (renderPath (a :: t)).data = a.data ++ r := by
  cases t with
  | nil => exact ⟨[], by simp [renderPath]⟩
  | cons b t =>
      exact ⟨("/" ++ renderPath (b :: t)).data, by
        simp [renderPath, String.data_append]⟩

/-! The orchestrator's six-subdirectory fold. -/

/-- The entries-only effect of one subdirectory fix of `main`. -/
def stepEs (a : String) (es : Entries) (nm : String × Nat) : Entries :=
  match es.lookup nm.1 with
  | none => es
  | some c => es.update nm.1 (fix_directory_permissions [a, nm.1] c nm.2).obj

theorem runOneSubdir_es (a : String) (s : OrchState) (nm : String × Nat) :
    (runOneSubdir a s nm).es = stepEs a s.es nm := by
  cases h : s.es.lookup nm.1 <;> simp [runOneSubdir, stepEs, h]

theorem foldl_runOne_es (a : String) (l : List (String × Nat)) :
    ∀ s : OrchState,
      (List.foldl (runOneSubdir a) s l).es = List.foldl (stepEs a) s.es l := by
  induction l with
  | nil => intro s; rfl
  | cons nm rest ih =>
      intro s
      simp only [List.foldl_cons, ih, runOneSubdir_es]

theorem stepEs_lookup_ne (a : String) (es : Entries) (nm : String × Nat)
    (k : String) (h : k ≠ nm.1) :
    (stepEs a es nm).lookup k = es.lookup k := by
  cases hl : es.lookup nm.1 with
  | none => simp [stepEs, hl]
  | some c => simp [stepEs, hl, Entries.lookup_update_ne _ _ _ _ h]

theorem foldl_stepEs_lookup_ne (a : String) (l : List (String × Nat))
    (k : String) (h : ∀ nm ∈ l, k ≠ nm.1) :
    ∀ es : Entries, (List.foldl (stepEs a) es l).lookup k = es.lookup k := by
  induction l with
  | nil => intro es; rfl
  | cons nm rest ih =>
      intro es
      simp only [List.foldl_cons]
      rw [ih (fun x hx => h x (List.mem_cons_of_mem nm hx)),
        stepEs_lookup_ne a es nm k (h nm (List.mem_cons_self nm rest))]

theorem stepEs_lookup_none (a : String) (es : Entries) (nm : String × Nat)
    (k : String) (h : es.lookup k = none) :
    (stepEs a es nm).lookup k = none := by
  by_cases hk : k = nm.1
  · subst hk
    simp [stepEs, h]
  · rw [stepEs_lookup_ne a es nm k hk]
    exact h

/-- One subdirectory fix fails exactly when the child is missing or its
root `chmod`/`chown` fails. -/
theorem runOneSubdir_failed (a : String) (s : OrchState) (nm : String × Nat) :
    (runOneSubdir a s nm).failed = (s.failed || !(rootOk s.es nm.1)) := by
  cases h : s.es.lookup nm.1 with
  | none => simp [runOneSubdir, rootOk, h]
  | some c => simp [runOneSubdir, rootOk, h, fix_perms_ok_eq]

theorem rootOk_stepEs_ne (a : String) (es : Entries) (nm : String × Nat)
    (k : String) (h : k ≠ nm.1) :
    rootOk (stepEs a es nm) k = rootOk es k := by
  rw [rootOk, rootOk, stepEs_lookup_ne a es nm k h]

/-- Whether any element of a list satisfies a predicate is unchanged when
the predicate agrees on all the members. -/
theorem any_congr_mem {α : Type} (l : List α) (f g : α → Bool)
    (h : ∀ x ∈ l, f x = g x) : l.any f = l.any g := by
  induction l with
  | nil => rfl
  | cons x rest ih =>
      simp only [List.any_cons, h x (List.mem_cons_self x rest),
        ih fun y hy => h y (List.mem_cons_of_mem x hy)]

/-- The aggregate `failed` flag after the six fixes: some child is missing
or has a failing root `chmod`/`chown`.  Needs the six names distinct, which
they are. -/
theorem foldl_runOne_failed (a : String) (l : List (String × Nat))
    (hn : (l.map Prod.fst).Nodup) :
    ∀ s : OrchState,
      (List.foldl (runOneSubdir a) s l).failed
        = (s.failed || l.any fun nm => !(rootOk s.es nm.1)) := by
  induction l with
  | nil => intro s; simp
  | cons nm rest ih =>
      intro s
      simp only [List.map_cons, List.nodup_cons] at hn
      simp only [List.foldl_cons, ih hn.2, runOneSubdir_failed,
        runOneSubdir_es]
      have hrest : ∀ x ∈ rest, (!(rootOk (stepEs a s.es nm) x.1))
          = (!(rootOk s.es x.1)) := by
        intro x hx
        have hne : x.1 ≠ nm.1 := by
          intro he
          exact hn.1 (he ▸ List.mem_map_of_mem Prod.fst hx)
        rw [rootOk_stepEs_ne a s.es nm x.1 hne]
      rw [any_congr_mem rest _ _ hrest]
      simp [List.any_cons, Bool.or_assoc]

/-- Each step of the fold appends to the touched list. -/
theorem runOneSubdir_touched_mono (a : String) (s : OrchState)
    (nm : String × Nat) :
    ∃ ts, (runOneSubdir a s nm).touched = s.touched ++ ts := by
  cases h : s.es.lookup nm.1 with
  | none => exact ⟨[[a, nm.1]], by simp [runOneSubdir, h]⟩
  | some c =>
      exact ⟨(fix_directory_permissions [a, nm.1] c nm.2).touched, by
        simp [runOneSubdir, h]⟩

theorem foldl_runOne_touched_mono (a : String) (l : List (String × Nat))
    (q : Path) :
    ∀ s : OrchState, q ∈ s.touched →
      q ∈ (List.foldl (runOneSubdir a) s l).touched := by
  induction l with
  | nil => intro s hs; exact hs
  | cons nm rest ih =>
      intro s hs
      obtain ⟨ts, hts⟩ := runOneSubdir_touched_mono a s nm
      exact ih (runOneSubdir a s nm)
        (by rw [hts]; exact List.mem_append_left ts hs)

/-- Each subdirectory of the list gets its root path onto the touched
list: `main` attempts a `chmod` on every one of the six, in order,
regardless of earlier failures. -/
theorem foldl_runOne_touched_all (a : String) (l : List (String × Nat)) :
    ∀ s : OrchState, ∀ nm ∈ l,
      [a, nm.1] ∈ (List.foldl (runOneSubdir a) s l).touched := by
  induction l with
  | nil => intro s nm h; simp at h
  | cons nm0 rest ih =>
      intro s nm h
      rcases List.mem_cons.mp h with he | hm
      · subst he
        rw [List.foldl_cons]
        refine foldl_runOne_touched_mono a rest _ _ ?_
        cases hl : s.es.lookup nm.1 with
        | none => simp [runOneSubdir, hl]
        | some c =>
            obtain ⟨t, ht⟩ :=
              fix_recursive_touched_head [a, nm.1] c nm.2
                (if nm.2 == 0o700 then 0o600 else 0o644)
            simp only [runOneSubdir, hl]
            refine List.mem_append_right _ ?_
            rw [fix_directory_permissions, ht]
            exact List.mem_cons_self _ _
      · rw [List.foldl_cons]
        exact ih (runOneSubdir a s nm0) nm hm

/-- Every path touched by the fold either was already touched or starts
with the agent-directory argument as its head component. -/
theorem foldl_runOne_touched_shape (a : String) (l : List (String × Nat))
    (q : Path) :
    ∀ s : OrchState, q ∈ (List.foldl (runOneSubdir a) s l).touched →
      q ∈ s.touched ∨ ∃ t, q = a :: t := by
  induction l with
  | nil => intro s hq; exact Or.inl hq
  | cons nm rest ih =>
      intro s hq
      rcases ih (runOneSubdir a s nm) hq with hin | hout
      · cases hl : s.es.lookup nm.1 with
        | none =>
            simp only [runOneSubdir, hl, List.mem_append] at hin
            rcases hin with hin | hin
            · exact Or.inl hin
            · simp at hin
              exact Or.inr ⟨[nm.1], by simp [hin]⟩
        | some c =>
            simp only [runOneSubdir, hl, List.mem_append] at hin
            rcases hin with hin | hin
            · exact Or.inl hin
            · obtain ⟨t, ht⟩ := fix_recursive_touched_sub [a, nm.1] c nm.2
                (if nm.2 == 0o700 then 0o600 else 0o644) q
                (by simpa [fix_directory_permissions] using hin)
              exact Or.inr ⟨[nm.1] ++ t, by simp [ht]⟩
      · exact Or.inr hout

/-- Each step of the fold appends to the stderr list. -/
theorem runOneSubdir_errs_mono (a : String) (s : OrchState)
    (nm : String × Nat) :
    ∃ ms, (runOneSubdir a s nm).errs = s.errs ++ ms := by
  cases h : s.es.lookup nm.1 with
  | none => exact ⟨[chmodMsg [a, nm.1]], by simp [runOneSubdir, h]⟩
  | some c =>
      exact ⟨(fix_directory_permissions [a, nm.1] c nm.2).errs, by
        simp [runOneSubdir, h]⟩

theorem foldl_runOne_errs_mono (a : String) (l : List (String × Nat))
    (msg : String) :
    ∀ s : OrchState, msg ∈ s.errs →
      msg ∈ (List.foldl (runOneSubdir a) s l).errs := by
  induction l with
  | nil => intro s hs; exact hs
  | cons nm rest ih =>
      intro s hs
      obtain ⟨ms, hms⟩ := runOneSubdir_errs_mono a s nm
      exact ih (runOneSubdir a s nm)
        (by rw [hms]; exact List.mem_append_left ms hs)

/-- A subdirectory of the list that is missing from the entries puts the
failed-chmod message for its path onto stderr. -/
theorem foldl_runOne_missing_msg (a : String) (l : List (String × Nat))
    (ms : String) :
    ∀ s : OrchState, (∃ md, (ms, md) ∈ l) → s.es.lookup ms = none →
      chmodMsg [a, ms] ∈ (List.foldl (runOneSubdir a) s l).errs := by
  induction l with
  | nil => intro s hms h; simp at hms
  | cons nm rest ih =>
      intro s hms hnone
      by_cases he : ms = nm.1
      · subst he
        rw [List.foldl_cons]
        refine foldl_runOne_errs_mono a rest _ _ ?_
        simp [runOneSubdir, hnone]
      · obtain ⟨md, hmd⟩ := hms
        rcases List.mem_cons.mp hmd with hh | hm
        · exact absurd (congrArg Prod.fst hh) he
        · refine ih (runOneSubdir a s nm) ⟨md, hm⟩ ?_
          rw [runOneSubdir_es]
          exact stepEs_lookup_none a s.es nm ms hnone

/-- The `failed` flag never resets. -/
theorem foldl_runOne_failed_mono (a : String) (l : List (String × Nat)) :
    ∀ s : OrchState, s.failed = true →
      (List.foldl (runOneSubdir a) s l).failed = true := by
  induction l with
  | nil => intro s hs; exact hs
  | cons nm rest ih =>
      intro s hs
      refine ih (runOneSubdir a s nm) ?_
      rw [runOneSubdir_failed, hs, Bool.true_or]

/-- A subdirectory of the list missing from the entries forces the
aggregate `failed` flag. -/
theorem foldl_runOne_missing_failed (a : String) (l : List (String × Nat))
    (ms : String) :
    ∀ s : OrchState, (∃ md, (ms, md) ∈ l) → s.es.lookup ms = none →
      (List.foldl (runOneSubdir a) s l).failed = true := by
  induction l with
  | nil => intro s hms h; simp at hms
  | cons nm rest ih =>
      intro s hms hnone
      by_cases he : ms = nm.1
      · subst he
        rw [List.foldl_cons]
        refine foldl_runOne_failed_mono a rest _ ?_
        rw [runOneSubdir_failed]
        simp [rootOk, hnone]
      · obtain ⟨md, hmd⟩ := hms
        rcases List.mem_cons.mp hmd with hh | hm
        · exact absurd (congrArg Prod.fst hh) he
        · refine ih (runOneSubdir a s nm) ⟨md, hm⟩ ?_
          rw [runOneSubdir_es]
          exact stepEs_lookup_none a s.es nm ms hnone

/-- When every subdirectory of the list exists as a fault-free directory,
the fold leaves `failed` unchanged, touches no other name, and leaves every
listed subdirectory fully normalized for its mode pair. -/
theorem foldl_runOne_normalized (a : String) (l : List (String × Nat))
    (hn : (l.map Prod.fst).Nodup) :
    ∀ s : OrchState,
      (∀ nm ∈ l, ∃ m f es, s.es.lookup nm.1 = some (FSObj.dir m f es) ∧
          noFaultsObj (FSObj.dir m f es) = true) →
      (List.foldl (runOneSubdir a) s l).failed = s.failed ∧
      (∀ k, (∀ nm ∈ l, k ≠ nm.1) →
          (List.foldl (runOneSubdir a) s l).es.lookup k = s.es.lookup k) ∧
      (∀ nm ∈ l, ∃ o,
          (List.foldl (runOneSubdir a) s l).es.lookup nm.1 = some o ∧
          normalizedObj nm.2 (if nm.2 == 0o700 then 0o600 else 0o644) o
            = true) := by
  induction l with
  | nil =>
      intro s hp
      exact ⟨rfl, fun k _ => rfl, fun nm h => absurd h (by simp)⟩
  | cons nm rest ih =>
      intro s hp
      simp only [List.map_cons, List.nodup_cons] at hn
      have hnot : ∀ x ∈ rest, nm.1 ≠ x.1 := by
        intro x hx he
        exact hn.1 (he ▸ List.mem_map_of_mem Prod.fst hx)
      obtain ⟨m, f, es0, hlook, hnf⟩ := hp nm (List.mem_cons_self nm rest)
      have hok : rootOk s.es nm.1 = true := by
        have hnf0 := hnf
        simp only [noFaultsObj, Flags.allOk, Bool.and_eq_true,
          Bool.not_eq_true'] at hnf0
        simp [rootOk, hlook, FSObj.flagsOf, hnf0.1.1.1.1, hnf0.1.1.1.2]
      have hfailed : (runOneSubdir a s nm).failed = s.failed := by
        rw [runOneSubdir_failed, hok]
        simp
      have hobj := fix_recursive_normalized [a, nm.1] m f es0 nm.2
        (if nm.2 == 0o700 then 0o600 else 0o644) hnf
      have hes : (runOneSubdir a s nm).es
          = s.es.update nm.1
              (fix_directory_permissions [a, nm.1] (.dir m f es0) nm.2).obj := by
        simp [runOneSubdir, hlook]
      have hlook1 : (runOneSubdir a s nm).es.lookup nm.1
          = some (fix_directory_permissions [a, nm.1] (.dir m f es0) nm.2).obj := by
        rw [hes]
        exact Entries.lookup_update_self s.es nm.1 _ (by simp [hlook])
      have hframe1 : ∀ k, k ≠ nm.1 →
          (runOneSubdir a s nm).es.lookup k = s.es.lookup k := by
        intro k hk
        rw [hes]
        exact Entries.lookup_update_ne s.es nm.1 k _ hk
      have hp1 : ∀ x ∈ rest, ∃ m' f' es',
          (runOneSubdir a s nm).es.lookup x.1 = some (FSObj.dir m' f' es') ∧
          noFaultsObj (FSObj.dir m' f' es') = true := by
        intro x hx
        obtain ⟨m', f', es', hl', hn'⟩ := hp x (List.mem_cons_of_mem nm hx)
        refine ⟨m', f', es', ?_, hn'⟩
        rw [hframe1 x.1 fun he => hnot x hx he.symm]
        exact hl'
      obtain ⟨ihf, ihframe, ihnorm⟩ := ih hn.2 (runOneSubdir a s nm) hp1
      rw [List.foldl_cons]
      refine ⟨by rw [ihf, hfailed], ?_, ?_⟩
      · intro k hk
        rw [ihframe k fun x hx => hk x (List.mem_cons_of_mem nm hx),
          hframe1 k (hk nm (List.mem_cons_self nm rest))]
      · intro x hx
        rcases List.mem_cons.mp hx with he | hm
        · subst he
          refine ⟨(fix_directory_permissions [a, x.1] (.dir m f es0) x.2).obj,
            ?_, ?_⟩
          · rw [ihframe x.1 hnot]
            exact hlook1
          · simpa [fix_directory_permissions] using hobj.2
        · exact ihnorm x hm

/-- Running the six-subdirectory fold twice over the entries produces the
entries a single run produces (idempotence at the entry level). -/
theorem foldl_stepEs_idem (a : String) (l : List (String × Nat))
    (hn : (l.map Prod.fst).Nodup) :
    ∀ es : Entries,
      List.foldl (stepEs a) (List.foldl (stepEs a) es l) l
        = List.foldl (stepEs a) es l := by
  induction l with
  | nil => intro es; rfl
  | cons nm rest ih =>
      intro es
      simp only [List.map_cons, List.nodup_cons] at hn
      have hnot : ∀ x ∈ rest, nm.1 ≠ x.1 := by
        intro x hx he
        exact hn.1 (he ▸ List.mem_map_of_mem Prod.fst hx)
      rw [List.foldl_cons, List.foldl_cons]
      have hstep : stepEs a
            (List.foldl (stepEs a) (stepEs a es nm) rest) nm
          = List.foldl (stepEs a) (stepEs a es nm) rest := by
        cases hl : es.lookup nm.1 with
        | none =>
            have h1 : stepEs a es nm = es := by simp [stepEs, hl]
            rw [h1]
            have h2 : (List.foldl (stepEs a) es rest).lookup nm.1 = none := by
              rw [foldl_stepEs_lookup_ne a rest nm.1 hnot es]
              exact hl
            simp [stepEs, h2]
        | some c =>
            have h1 : (stepEs a es nm).lookup nm.1
                = some (fix_directory_permissions [a, nm.1] c nm.2).obj := by
              simp only [stepEs, hl]
              exact Entries.lookup_update_self es nm.1 _ (by simp [hl])
            have h2 : (List.foldl (stepEs a) (stepEs a es nm) rest).lookup nm.1
                = some (fix_directory_permissions [a, nm.1] c nm.2).obj := by
              rw [foldl_stepEs_lookup_ne a rest nm.1 hnot _]
              exact h1
            generalize hX : List.foldl (stepEs a) (stepEs a es nm) rest = X
              at h2 ⊢
            simp only [stepEs, h2]
            rw [fix_perms_obj_idem]
            exact Entries.update_eq_self X nm.1 _ h2
      rw [hstep]
      exact ih hn.2 (stepEs a es nm)

/-- The six subdirectory names are pairwise distinct. -/
theorem sixSubdirs_nodup : (sixSubdirs.map Prod.fst).Nodup := by decide

/-- The named child exists and is a directory whose whole subtree is free
of injected syscall faults (decidable form used as a hypothesis). -/
def childDirNoFaults (es : Entries) (k : String) : Bool :=
  match es.lookup k with
  | some (.dir m f es2) => noFaultsObj (.dir m f es2)
  | _ => false

theorem childDirNoFaults_elim (es : Entries) (k : String)
    (h : childDirNoFaults es k = true) :
    ∃ m f es2, es.lookup k = some (.dir m f es2) ∧
      noFaultsObj (.dir m f es2) = true := by
  unfold childDirNoFaults at h
  cases hl : es.lookup k with
  | none => rw [hl] at h; exact absurd h (by simp)
  | some o =>
      rw [hl] at h
      cases o with
      | dir m f es2 => exact ⟨m, f, es2, rfl, h⟩
      | file m f => simp at h
      | symlink m f => simp at h
      | other m f => simp at h

/-- With a valid argument, an existing directory target and a successful
`setuid`, the final world is the agent directory with its entries run
through the six fixes, whatever the `failed` flag ended up being. -/
theorem main_world_valid (a : String) (m : Meta) (f : Flags) (es : Entries)
    (suOk : Bool) (hv : validatePath a = true) (hs : suOk = true) :
    (main a (some (.dir m f es)) suOk).world
      = some (.dir m f (runSubdirs a es).es) := by
  subst hs
  by_cases hf : (runSubdirs a es).failed <;> simp [main, hv, hf]

/-- Companion to `main_world_valid` for the touched-path list. -/
theorem main_touched_valid (a : String) (m : Meta) (f : Flags)
    (es : Entries) (suOk : Bool) (hv : validatePath a = true)
    (hs : suOk = true) :
    (main a (some (.dir m f es)) suOk).touched
      = (runSubdirs a es).touched := by
  subst hs
  by_cases hf : (runSubdirs a es).failed <;> simp [main, hv, hf]

/-! Concrete worlds used by witnesses and counterexamples. -/

/-- Flags injecting one `chmod` failure. -/
def chmodFailFlags : Flags := ⟨true, false, false, false⟩

/-- All six subdirectories present; the file `data/f` suffers a `chmod`
failure during traversal, everything else succeeds. -/
def esSix : Entries :=
  .cons "data" (.dir ⟨0o700, 0, 0⟩ okFlags
      (.cons "f" (.file ⟨0o600, 0, 0⟩ chmodFailFlags) .nil))
    (.cons "data_archive" (.dir ⟨0o755, 0, 0⟩ okFlags .nil)
      (.cons "logs" (.dir ⟨0o755, 0, 0⟩ okFlags .nil)
        (.cons "config" (.dir ⟨0o755, 0, 0⟩ okFlags .nil)
          (.cons "audit_keys" (.dir ⟨0o700, 0, 0⟩ okFlags .nil)
            (.cons ".secrets" (.dir ⟨0o700, 0, 0⟩ okFlags .nil) .nil)))))

/-- An agent directory holding `esSix`. -/
def wFaulty : FSObj := .dir ⟨0o755, 0, 0⟩ okFlags esSix

/-- All six subdirectories present and fault-free, with some content. -/
def esGood : Entries :=
  .cons "data" (.dir ⟨0o777, 5, 5⟩ okFlags
      (.cons "agent.db" (.file ⟨0o666, 5, 5⟩ okFlags) .nil))
    (.cons "data_archive" (.dir ⟨0o777, 5, 5⟩ okFlags .nil)
      (.cons "logs" (.dir ⟨0o777, 5, 5⟩ okFlags .nil)
        (.cons "config" (.dir ⟨0o777, 5, 5⟩ okFlags .nil)
          (.cons "audit_keys" (.dir ⟨0o777, 5, 5⟩ okFlags
              (.cons "audit.key" (.file ⟨0o644, 5, 5⟩ okFlags) .nil))
            (.cons ".secrets" (.dir ⟨0o777, 5, 5⟩ okFlags .nil) .nil)))))

/-- Five of the six present and fault-free; `.secrets` is absent. -/
def esMissing : Entries :=
  .cons "data" (.dir ⟨0o755, 0, 0⟩ okFlags .nil)
    (.cons "data_archive" (.dir ⟨0o755, 0, 0⟩ okFlags .nil)
      (.cons "logs" (.dir ⟨0o755, 0, 0⟩ okFlags .nil)
        (.cons "config" (.dir ⟨0o755, 0, 0⟩ okFlags .nil)
          (.cons "audit_keys" (.dir ⟨0o700, 0, 0⟩ okFlags .nil) .nil))))

/-- A world holding only a `data` child, used for the path-escape runs. -/
def wEscape : FSObj :=
  .dir ⟨0o755, 0, 0⟩ okFlags
    (.cons "data" (.dir ⟨0, 0, 0⟩ okFlags .nil) .nil)

/-! The claims. -/

/-- C1 (amended): every path the program passes to `chmod`/`chown`/`lchown`
is the validated command-line argument followed by further components, so
it textually begins with `/opt/ciris/agents/`; the original claim that the
mutated object always lies inside the base directory fails, because `..`
components after the textual check resolve outside it
(`C1_counterexample`). -/
theorem C1_touched_textually_under_argument (a : String) (w : Option FSObj)
    (suOk : Bool) (q : Path) (hq : q ∈ (main a w suOk).touched) :
    validatePath a = true ∧ (∃ t, q = a :: t) ∧
    AGENT_BASE_PATH.data <+: (renderPath q).data := by
  by_cases hv : validatePath a = true
  · have hshape : ∃ t, q = a :: t := by
      cases w with
      | none => simp [main, hv] at hq
      | some o =>
          cases o with
          | dir m f es =>
              by_cases hs : suOk
              · have h2 : q ∈ (runSubdirs a es).touched := by
                  by_cases hf : (runSubdirs a es).failed <;>
                    simpa [main, hv, hs, hf] using hq
                rw [runSubdirs] at h2
                rcases foldl_runOne_touched_shape a sixSubdirs q
                    ⟨es, false, [], [], []⟩ h2 with hin | hout
                · simp at hin
                · exact hout
              · simp [main, hv, hs] at hq
          | file m f => simp [main, hv] at hq
          | symlink m f => simp [main, hv] at hq
          | other m f => simp [main, hv] at hq
    obtain ⟨t, ht⟩ := hshape
    refine ⟨hv, ⟨t, ht⟩, ?_⟩
    obtain ⟨r1, hr1⟩ := (validatePath_iff a).mp hv
    obtain ⟨r2, hr2⟩ := renderPath_cons_data a t
    subst ht
    exact ⟨r1 ++ r2, by rw [hr2, ← hr1, List.append_assoc]⟩
  · have hv2 : validatePath a = false := by simpa using hv
    simp [main, hv2] at hq

theorem C1_witness :
    validatePath "/opt/ciris/agents/agent-7" = true ∧
    (∃ t, (["/opt/ciris/agents/agent-7", "data"] : Path)
        = "/opt/ciris/agents/agent-7" :: t) ∧
    AGENT_BASE_PATH.data <+:
      (renderPath ["/opt/ciris/agents/agent-7", "data"]).data :=
  C1_touched_textually_under_argument "/opt/ciris/agents/agent-7"
    (some (.dir ⟨0o755, 0, 0⟩ okFlags esGood)) true
    ["/opt/ciris/agents/agent-7", "data"] (by decide)

/-- C1 fails as stated: the argument `/opt/ciris/agents/..` passes the
security check, and the run then mutates the mode and ownership of the
object reached through `/opt/ciris/agents/../data`, which resolves to
`/opt/ciris/data` — outside the base directory. -/
theorem C1_counterexample :
    validatePath "/opt/ciris/agents/.." = true ∧
    lookupIn (some wEscape) "data" = some (.dir ⟨0, 0, 0⟩ okFlags .nil) ∧
    lookupIn (main "/opt/ciris/agents/.." (some wEscape) true).world "data"
      = some (.dir ⟨0o755, 1000, 1000⟩ okFlags .nil) ∧
    resolve (renderPath ["/opt/ciris/agents/..", "data"])
      = ["opt", "ciris", "data"] ∧
    isUnderBase (resolve (renderPath ["/opt/ciris/agents/..", "data"]))
      = false := by
  decide

/-- C2 (amended): a per-entry I/O failure is reported to standard error and
traversal continues past the entry (and past the remaining entries), but
such failures are not accumulated into the exit status: the process exits 1
exactly when one of the six subdirectory roots is missing or its initial
`chmod`/`chown` fails, and all six subdirectory paths are attempted
regardless. -/
theorem C2_per_entry_failures_not_accumulated (a : String) (m : Meta)
    (f : Flags) (es : Entries) (suOk : Bool)
    (hv : validatePath a = true) (hs : suOk = true) :
    ((main a (some (.dir m f es)) suOk).exitCode
        = if sixSubdirs.any (fun nm => !(rootOk es nm.1)) then 1 else 0) ∧
    (∀ nm ∈ sixSubdirs,
        [a, nm.1] ∈ (main a (some (.dir m f es)) suOk).touched) ∧
    (∀ p n c rest dm fm,
        (fixEntries p (.cons n c rest) dm fm).objs
            = .cons n (fixEntry p n c dm fm).obj
                (fixEntries p rest dm fm).objs ∧
        (fixEntries p (.cons n c rest) dm fm).errs
            = (fixEntry p n c dm fm).errs
                ++ (fixEntries p rest dm fm).errs) := by
  subst hs
  have hfail : (runSubdirs a es).failed
      = sixSubdirs.any fun nm => !(rootOk es nm.1) := by
    rw [runSubdirs, foldl_runOne_failed a sixSubdirs sixSubdirs_nodup]
    simp
  refine ⟨?_, ?_, ?_⟩
  · rw [← hfail]
    by_cases hf : (runSubdirs a es).failed <;> simp [main, hv, hf]
  · intro nm hnm
    have hm := foldl_runOne_touched_all a sixSubdirs
      ⟨es, false, [], [], []⟩ nm hnm
    rw [main_touched_valid a m f es true hv rfl, runSubdirs]
    exact hm
  · intro p n c rest dm fm
    exact ⟨by simp [fixEntries], by simp [fixEntries]⟩

theorem C2_witness :
    ((main "/opt/ciris/agents/agent-7"
          (some (.dir ⟨0o755, 0, 0⟩ okFlags esSix)) true).exitCode
        = if sixSubdirs.any (fun nm => !(rootOk esSix nm.1)) then 1 else 0) ∧
    (∀ nm ∈ sixSubdirs,
        ["/opt/ciris/agents/agent-7", nm.1]
          ∈ (main "/opt/ciris/agents/agent-7"
              (some (.dir ⟨0o755, 0, 0⟩ okFlags esSix)) true).touched) ∧
    (∀ p n c rest dm fm,
        (fixEntries p (.cons n c rest) dm fm).objs
            = .cons n (fixEntry p n c dm fm).obj
                (fixEntries p rest dm fm).objs ∧
        (fixEntries p (.cons n c rest) dm fm).errs
            = (fixEntry p n c dm fm).errs
                ++ (fixEntries p rest dm fm).errs) :=
  C2_per_entry_failures_not_accumulated "/opt/ciris/agents/agent-7"
    ⟨0o755, 0, 0⟩ okFlags esSix true (by decide) rfl

/-- C2 fails as stated: in this run the `chmod` on `data/f` fails and is
reported, yet the process exits 0, not 1. -/
theorem C2_counterexample :
    chmodMsg ["/opt/ciris/agents/agent-7", "data", "f"]
        ∈ (main "/opt/ciris/agents/agent-7" (some wFaulty) true).errs ∧
    (main "/opt/ciris/agents/agent-7" (some wFaulty) true).exitCode = 0 := by
  decide

/-- C3: an argument failing the textual base-path check makes the program
exit 1 immediately: no `setuid`, no filesystem change, no touched paths. -/
theorem C3_invalid_arg_fails_closed (a : String) (w : Option FSObj)
    (suOk : Bool) (h : validatePath a = false) :
    main a w suOk = ⟨1, false, w, [pathSecurityMsg], none, [], []⟩ := by
  simp [main, h]

theorem C3_witness :
    main "/etc/passwd" (some wFaulty) true
      = ⟨1, false, some wFaulty, [pathSecurityMsg], none, [], []⟩ :=
  C3_invalid_arg_fails_closed "/etc/passwd" (some wFaulty) true (by decide)

/-- C4 (amended): when the six expected children exist as directories and
no syscall of the run fails, the run exits 0 and afterwards each of the
six subtrees is fully normalized: directories carry the directory mode,
regular files the file mode (0700/0600 for `audit_keys` and `.secrets`,
0755/0644 for the rest), and every object carries owner/group 1000/1000.
The original claim conditioned only on exit status 0 and fails, because a
failed per-entry `chmod` does not affect the exit status
(`C4_counterexample`). -/
theorem C4_normalized_when_no_faults (a : String) (m : Meta) (f : Flags)
    (es : Entries)
    (hv : validatePath a = true)
    (h6 : ∀ nm ∈ sixSubdirs, childDirNoFaults es nm.1 = true) :
    (main a (some (.dir m f es)) true).exitCode = 0 ∧
    (∀ nm ∈ sixSubdirs, ∃ o,
        lookupIn (main a (some (.dir m f es)) true).world nm.1 = some o ∧
        normalizedObj nm.2 (if nm.2 == 0o700 then 0o600 else 0o644) o
          = true) := by
  have h6e : ∀ nm ∈ sixSubdirs, ∃ m2 f2 es2,
      es.lookup nm.1 = some (FSObj.dir m2 f2 es2) ∧
      noFaultsObj (FSObj.dir m2 f2 es2) = true :=
    fun nm h => childDirNoFaults_elim es nm.1 (h6 nm h)
  obtain ⟨hfail, hframe, hnorm⟩ :=
    foldl_runOne_normalized a sixSubdirs sixSubdirs_nodup
      ⟨es, false, [], [], []⟩ h6e
  have hf0 : (runSubdirs a es).failed = false := by
    rw [runSubdirs, hfail]
  constructor
  · simp [main, hv, hf0]
  · intro nm hnm
    obtain ⟨o, ho, hno⟩ := hnorm nm hnm
    refine ⟨o, ?_, hno⟩
    rw [main_world_valid a m f es true hv rfl]
    simpa [lookupIn, runSubdirs] using ho

theorem C4_witness :
    (main "/opt/ciris/agents/agent-7"
        (some (.dir ⟨0o755, 0, 0⟩ okFlags esGood)) true).exitCode = 0 ∧
    (∀ nm ∈ sixSubdirs, ∃ o,
        lookupIn (main "/opt/ciris/agents/agent-7"
            (some (.dir ⟨0o755, 0, 0⟩ okFlags esGood)) true).world nm.1
          = some o ∧
        normalizedObj nm.2 (if nm.2 == 0o700 then 0o600 else 0o644) o
          = true) :=
  C4_normalized_when_no_faults "/opt/ciris/agents/agent-7" ⟨0o755, 0, 0⟩
    okFlags esGood (by decide) (by decide)

/-- C4 fails as stated: this run exits 0 although the regular file
`data/f` still has mode 0600, not 0644 (its `chmod` failed and the failure
is not reflected in the exit status). -/
theorem C4_counterexample :
    (main "/opt/ciris/agents/agent-7" (some wFaulty) true).exitCode = 0 ∧
    lookupIn (main "/opt/ciris/agents/agent-7" (some wFaulty) true).world
        "data"
      = some (.dir ⟨0o755, 1000, 1000⟩ okFlags
          (.cons "f" (.file ⟨0o600, 1000, 1000⟩ chmodFailFlags) .nil)) ∧
    normalizedObj 0o755 0o644
        (.dir ⟨0o755, 1000, 1000⟩ okFlags
          (.cons "f" (.file ⟨0o600, 1000, 1000⟩ chmodFailFlags) .nil))
      = false := by
  decide

/-- C5: with exactly one of the six expected subdirectories absent, the run
still attempts all six (the other five included), reports its inability to
fix the missing path on stderr, and exits 1. -/
theorem C5_missing_subdir (a : String) (m : Meta) (f : Flags) (es : Entries)
    (ms : String) (md : Nat)
    (hv : validatePath a = true)
    (hmem : (ms, md) ∈ sixSubdirs)
    (hmiss : es.lookup ms = none)
    (hpres : ∀ nm ∈ sixSubdirs, nm.1 ≠ ms → (es.lookup nm.1).isSome) :
    (main a (some (.dir m f es)) true).exitCode = 1 ∧
    chmodMsg [a, ms] ∈ (main a (some (.dir m f es)) true).errs ∧
    ∀ nm ∈ sixSubdirs,
      [a, nm.1] ∈ (main a (some (.dir m f es)) true).touched := by
  have hfail : (runSubdirs a es).failed = true := by
    rw [runSubdirs]
    exact foldl_runOne_missing_failed a sixSubdirs ms
      ⟨es, false, [], [], []⟩ ⟨md, hmem⟩ hmiss
  refine ⟨by simp [main, hv, hfail], ?_, ?_⟩
  · have hmsg : chmodMsg [a, ms] ∈ (runSubdirs a es).errs := by
      rw [runSubdirs]
      exact foldl_runOne_missing_msg a sixSubdirs ms
        ⟨es, false, [], [], []⟩ ⟨md, hmem⟩ hmiss
    simp [main, hv, hfail]
    exact Or.inl hmsg
  · intro nm hnm
    have hm := foldl_runOne_touched_all a sixSubdirs
      ⟨es, false, [], [], []⟩ nm hnm
    rw [main_touched_valid a m f es true hv rfl, runSubdirs]
    exact hm

theorem C5_witness :
    (main "/opt/ciris/agents/agent-7"
        (some (.dir ⟨0o755, 0, 0⟩ okFlags esMissing)) true).exitCode = 1 ∧
    chmodMsg ["/opt/ciris/agents/agent-7", ".secrets"]
        ∈ (main "/opt/ciris/agents/agent-7"
            (some (.dir ⟨0o755, 0, 0⟩ okFlags esMissing)) true).errs ∧
    ∀ nm ∈ sixSubdirs,
      ["/opt/ciris/agents/agent-7", nm.1]
        ∈ (main "/opt/ciris/agents/agent-7"
            (some (.dir ⟨0o755, 0, 0⟩ okFlags esMissing)) true).touched :=
  C5_missing_subdir "/opt/ciris/agents/agent-7" ⟨0o755, 0, 0⟩ okFlags
    esMissing ".secrets" 0o700 (by decide) (by decide) (by decide)
    (by decide)

/-- C6: one invocation is idempotent on the filesystem — running the tool a
second time on the world the first run produced reproduces that world
exactly (for every argument, initial world, fault assignment and `setuid`
outcome). -/
theorem C6_idempotent (a : String) (w : Option FSObj) (suOk : Bool) :
    (main a (main a w suOk).world suOk).world = (main a w suOk).world := by
  by_cases hv : validatePath a = true
  · cases w with
    | none => simp [main, hv]
    | some o =>
        cases o with
        | dir m f es =>
            by_cases hs : suOk
            · rw [main_world_valid a m f es suOk hv hs,
                main_world_valid a m f _ suOk hv hs]
              have hes : (runSubdirs a (runSubdirs a es).es).es
                  = (runSubdirs a es).es := by
                rw [runSubdirs, runSubdirs, foldl_runOne_es, foldl_runOne_es]
                exact foldl_stepEs_idem a sixSubdirs sixSubdirs_nodup es
              rw [hes]
            · have hs2 : suOk = false := by simpa using hs
              simp [main, hv, hs2]
        | file m f => simp [main, hv]
        | symlink m f => simp [main, hv]
        | other m f => simp [main, hv]
  · have hv2 : validatePath a = false := by simpa using hv
    simp [main, hv2]

/-- C7: a symlink entry met during traversal keeps its mode bits under all
fault assignments, is never opened as a directory, and — when its `lstat`
and the link-aware `lchown` succeed — ends up owned by 1000/1000 with
nothing else about it changed. -/
theorem C7_symlink_entries (p : Path) (n : String) (m : Meta) (f : Flags)
    (dm fm : Nat) :
    (∃ m2, (fixEntry p n (.symlink m f) dm fm).obj = .symlink m2 f ∧
        m2.mode = m.mode) ∧
    (fixEntry p n (.symlink m f) dm fm).opened = [] ∧
    (f.lstatFail = false → f.chownFail = false →
      fixEntry p n (.symlink m f) dm fm
        = ⟨.symlink ⟨m.mode, CONTAINER_UID, CONTAINER_GID⟩ f, [],
            [p ++ [n]], []⟩) := by
  refine ⟨?_, ?_, ?_⟩
  · by_cases h1 : f.lstatFail
    · exact ⟨m, by simp [fixEntry, h1], rfl⟩
    · by_cases h2 : f.chownFail
      · exact ⟨m, by simp [fixEntry, h1, h2], rfl⟩
      · exact ⟨⟨m.mode, CONTAINER_UID, CONTAINER_GID⟩,
          by simp [fixEntry, h1, h2], rfl⟩
  · by_cases h1 : f.lstatFail
    · simp [fixEntry, h1]
    · by_cases h2 : f.chownFail <;> simp [fixEntry, h1, h2]
  · intro h1 h2
    simp [fixEntry, h1, h2]

theorem C7_witness :
    (∃ m2, (fixEntry ["/opt/ciris/agents/agent-7", "data"] "link"
          (.symlink ⟨0o777, 5, 5⟩ okFlags) 0o755 0o644).obj
        = .symlink m2 okFlags ∧ m2.mode = 0o777) ∧
    (fixEntry ["/opt/ciris/agents/agent-7", "data"] "link"
        (.symlink ⟨0o777, 5, 5⟩ okFlags) 0o755 0o644).opened = [] ∧
    fixEntry ["/opt/ciris/agents/agent-7", "data"] "link"
        (.symlink ⟨0o777, 5, 5⟩ okFlags) 0o755 0o644
      = ⟨.symlink ⟨0o777, CONTAINER_UID, CONTAINER_GID⟩ okFlags, [],
          [["/opt/ciris/agents/agent-7", "data", "link"]], []⟩ := by
  obtain ⟨h1, h2, h3⟩ := C7_symlink_entries
    ["/opt/ciris/agents/agent-7", "data"] "link" ⟨0o777, 5, 5⟩ okFlags
    0o755 0o644
  exact ⟨h1, h2, h3 rfl rfl⟩

/-- C8: the return value of the recursive normalizer is decided by the
initial `chmod` and `chown` on the root path alone; `opendir` failures,
per-entry failures and the ignored recursive results never change it. -/
theorem C8_return_depends_only_on_root (p : Path) (o : FSObj)
    (dm fm : Nat) :
    (fix_directory_permissions_recursive p o dm fm).ok
      = (!o.flagsOf.chmodFail && !o.flagsOf.chownFail) :=
  fix_recursive_ok_eq p o dm fm

/-- C9: path validation is a purely textual comparison of the argument's
first `strlen("/opt/ciris/agents/")` bytes; the bare base path passes it,
and an argument with `..` components passes it while resolving outside the
base directory, after which the run still escalates and normalizes. -/
theorem C9_validation_is_textual :
    (∀ s, validatePath s = true ↔ AGENT_BASE_PATH.data <+: s.data) ∧
    validatePath AGENT_BASE_PATH = true ∧
    validatePath "/opt/ciris/agents/../../etc" = true ∧
    isUnderBase (resolve "/opt/ciris/agents/../../etc") = false ∧
    (main "/opt/ciris/agents/../../etc" (some wEscape) true).setuidCalled
      = true ∧
    (main "/opt/ciris/agents/../../etc" (some wEscape) true).touched
      ≠ [] :=
  ⟨validatePath_iff, by decide, by decide, by decide, by decide, by decide⟩

theorem C9_witness : validatePath "/opt/ciris/agents/../../etc" = true :=
  C9_validation_is_textual.2.2.1

/-- C10: an entry whose link-aware `lchown` fails (its `lstat` having
succeeded) is skipped entirely: the entry — mode bits and whole subtree —
is unchanged, only the failed-chown message is emitted, and no directory
beneath it is opened. -/
theorem C10_failed_lchown_skips_entry (p : Path) (n : String) (c : FSObj)
    (dm fm : Nat) (h1 : c.flagsOf.lstatFail = false)
    (h2 : c.flagsOf.chownFail = true) :
    fixEntry p n c dm fm = ⟨c, [chownMsg (p ++ [n])], [p ++ [n]], []⟩ := by
  cases c with
  | dir m f es =>
      simp only [FSObj.flagsOf] at h1 h2
      simp [fixEntry, h1, h2]
  | file m f =>
      simp only [FSObj.flagsOf] at h1 h2
      simp [fixEntry, h1, h2]
  | symlink m f =>
      simp only [FSObj.flagsOf] at h1 h2
      simp [fixEntry, h1, h2]
  | other m f =>
      simp only [FSObj.flagsOf] at h1 h2
      simp [fixEntry, h1, h2]

theorem C10_witness :
    fixEntry ["/opt/ciris/agents/agent-7", "data"] "d"
        (.dir ⟨0o777, 5, 5⟩ ⟨false, true, false, false⟩
          (.cons "x" (.file ⟨0, 0, 0⟩ okFlags) .nil)) 0o755 0o644
      = ⟨.dir ⟨0o777, 5, 5⟩ ⟨false, true, false, false⟩
            (.cons "x" (.file ⟨0, 0, 0⟩ okFlags) .nil),
          [chownMsg ["/opt/ciris/agents/agent-7", "data", "d"]],
          [["/opt/ciris/agents/agent-7", "data", "d"]], []⟩ :=
  C10_failed_lchown_skips_entry ["/opt/ciris/agents/agent-7", "data"] "d"
    (.dir ⟨0o777, 5, 5⟩ ⟨false, true, false, false⟩
      (.cons "x" (.file ⟨0, 0, 0⟩ okFlags) .nil)) 0o755 0o644 rfl rfl

end Ciris
